import Mathlib

/-!
# Verification of the dashing terminal-dashboard library

Shallow embedding of the layout and glyph-rendering algorithms of
`dashing/__init__.py`: color gradient interpolation (`interpolate_colors`
together with the `colorsys` HSV conversions it calls), gauge and chart bar
construction, split-container geometry, border/title box insetting, the
bounded history buffers (`collections.deque(maxlen=...)`), log padding
(`_pad`) and braille packing (`_generate_braille`).

Python numeric conventions used throughout the embedding:
* floats are modelled as exact rationals (`ℚ`);
* `int(x)` truncates toward zero (`pyInt`);
* `x % 1.0` on a float returns `x - ⌊x⌋` (`fract`);
* `//` on integers is floor division (`Int.fdiv`);
* sequence indexing `d[i]` supports negative (from-the-end) indices and
  raises `IndexError` out of range, modelled as `Option` (`pyGet`);
* `s * n` for a string and a negative integer is the empty string
  (`Int.toNat` before `List.replicate`).
-/

namespace Dashing

-- The Batteries rational arithmetic operations are shipped irreducible;
-- make them unfold locally so that concrete renders evaluate by `decide`.
attribute [local semireducible] Rat.add Rat.mul Rat.sub Rat.inv Rat.ofScientific

/-- Python `int()` conversion of a float: truncation toward zero. -/
def pyInt (q : ℚ) : ℤ := if 0 ≤ q then ⌊q⌋ else -⌊-q⌋

/-- Python `x % 1.0` for a float `x`: the fractional part `x - ⌊x⌋`. -/
def fract (q : ℚ) : ℚ := q - ⌊q⌋

/-- Python sequence indexing `d[i]` (list or deque of floats): negative
indices count from the end; `none` models `IndexError`. -/
def pyGet (d : List ℚ) (i : ℤ) : Option ℚ :=
  if 0 ≤ i then d.get? i.toNat
  else if (d.length : ℤ) + i < 0 then none
  else d.get? ((d.length : ℤ) + i).toNat

/-- Python tuple indexing for the braille mask tables (naturals). -/
def pyGetNat (d : List ℕ) (i : ℤ) : Option ℕ :=
  if 0 ≤ i then d.get? i.toNat
  else if (d.length : ℤ) + i < 0 then none
  else d.get? ((d.length : ℤ) + i).toNat

/-- Python tuple indexing for the glyph tables (characters). -/
def pyGetChar (d : List Char) (i : ℤ) : Option Char :=
  if 0 ≤ i then d.get? i.toNat
  else if (d.length : ℤ) + i < 0 then none
  else d.get? ((d.length : ℤ) + i).toNat

theorem pyInt_of_nonneg {q : ℚ} (h : 0 ≤ q) : pyInt q = ⌊q⌋ := if_pos h

theorem pyInt_intCast (n : ℤ) : pyInt (n : ℚ) = n := by
  unfold pyInt
  by_cases h : (0 : ℚ) ≤ (n : ℚ)
  · rw [if_pos h, Int.floor_intCast]
  · rw [if_neg h]
    rw [show (-(n : ℚ)) = ((-n : ℤ) : ℚ) by push_cast; ring, Int.floor_intCast]
    ring

theorem pyInt_natCast (n : ℕ) : pyInt (n : ℚ) = n := by
  have := pyInt_intCast (n : ℤ)
  rwa [Int.cast_natCast] at this

theorem pyInt_zero : pyInt 0 = 0 := by
  have := pyInt_natCast 0
  simpa using this

/-! ## Glyph tables (module-level constants of `dashing/__init__.py`) -/

/-- `hbar_elements = ("▏", "▎", "▍", "▌", "▋", "▊", "▉")` -/
def hbar_elements : List Char := ['▏', '▎', '▍', '▌', '▋', '▊', '▉']

/-- `vbar_elements = ("▁", "▂", "▃", "▄", "▅", "▆", "▇", "█")` -/
def vbar_elements : List Char := ['▁', '▂', '▃', '▄', '▅', '▆', '▇', '█']

/-- `braille_left = (0x01, 0x02, 0x04, 0x40, 0)` -/
def braille_left : List ℕ := [0x01, 0x02, 0x04, 0x40, 0]

/-- `braille_right = (0x08, 0x10, 0x20, 0x80, 0)` -/
def braille_right : List ℕ := [0x08, 0x10, 0x20, 0x80, 0]

/-! ## Bounded history buffers

`VChart.datapoints` and `Log.logs` are `deque(maxlen=50)`;
`HChart`, `HBrailleChart` and `HBrailleFilledChart` use `deque(maxlen=500)`.
`deque.append` drops the oldest element once the buffer is at capacity. -/

/-- One `deque.append` on a deque with `maxlen` set. -/
def deque_append (maxlen : ℕ) (d : List α) (x : α) : List α :=
  if d.length < maxlen then d ++ [x] else (d ++ [x]).drop 1

/-- Appending a whole sequence of samples, oldest first. -/
def deque_extend (maxlen : ℕ) (d : List α) (xs : List α) : List α :=
  xs.foldl (deque_append maxlen) d

def VChart_capacity : ℕ := 50
def Log_capacity : ℕ := 50
def HChart_capacity : ℕ := 500
def HBrailleChart_capacity : ℕ := 500
def HBrailleFilledChart_capacity : ℕ := 500

/-- The deque law: starting empty, appending any sequence leaves exactly the
last `maxlen` elements, in order. -/
theorem deque_extend_nil (maxlen : ℕ) (hm : 0 < maxlen) (xs : List α) :
    deque_extend maxlen [] xs = xs.drop (xs.length - maxlen) := by
  induction xs using List.reverseRecOn with
  | nil => simp [deque_extend]
  | append_singleton ys x ih =>
    unfold deque_extend at ih ⊢
    rw [List.foldl_append, List.foldl_cons, List.foldl_nil, ih]
    unfold deque_append
    by_cases h : ys.length < maxlen
    · have h1 : ys.length - maxlen = 0 := by omega
      have h2 : (ys ++ [x]).length - maxlen = 0 := by simp; omega
      rw [h1, h2, List.drop_zero, List.drop_zero, if_pos h]
    · have hlen : (ys.drop (ys.length - maxlen)).length = maxlen := by
        simp; omega
      rw [if_neg (by omega)]
      rw [← List.drop_append_of_le_length (by omega)]
      rw [List.drop_drop]
      congr 1
      simp
      omega

/-- C7: for every chart or log history buffer of capacity C (C = 50 for
VChart and Log, C = 500 for HChart, HBrailleChart and HBrailleFilledChart)
and every sequence of C + k appended samples (k ≥ 0), the buffer afterwards
holds exactly the last C appended samples, in their original append order
(FIFO eviction of the oldest). -/
theorem C7_history_fifo (C : ℕ)
    (hC : C = VChart_capacity ∨ C = Log_capacity ∨ C = HChart_capacity ∨
          C = HBrailleChart_capacity ∨ C = HBrailleFilledChart_capacity)
    (k : ℕ) (xs : List ℚ) (hlen : xs.length = C + k) :
    deque_extend C [] xs = xs.drop k := by
  have hpos : 0 < C := by
    rcases hC with h | h | h | h | h <;>
      simp [h, VChart_capacity, Log_capacity, HChart_capacity,
        HBrailleChart_capacity, HBrailleFilledChart_capacity]
  rw [deque_extend_nil C hpos, hlen]
  congr 1
  omega

/-- Witness for C7: a concrete 52-sample run through a capacity-50 buffer
keeps exactly the last 50 samples. -/
theorem C7_history_fifo_witness :
    deque_extend 50 [] (List.map (Nat.cast : ℕ → ℚ) (List.range 52)) =
      (List.map (Nat.cast : ℕ → ℚ) (List.range 52)).drop 2 :=
  C7_history_fifo 50 (Or.inl rfl) 2 _ (by rw [List.length_map, List.length_range])

/-! ## Braille packing (`_generate_braille`) -/

/-- `_generate_braille(le, ri)` from the source:
`v = 0x28 * 256 + (braille_left[le] + braille_right[ri]); return chr(v)`.
The resulting codepoint is returned as a natural number; `none` models an
`IndexError` on the table lookups. -/
def generate_braille (le ri : ℤ) : Option ℕ := do
  let l ← pyGetNat braille_left le
  let r ← pyGetNat braille_right ri
  return 0x28 * 256 + (l + r)

/-- C9: for dot-row indices r1, r2 in 0..3 the emitted character is the
codepoint 0x2800 plus the bitwise OR of the left mask for r1 and the right
mask for r2; an absent side (index -1, the trailing 0 sentinel of the mask
tables) contributes no bits. -/
theorem C9_braille_packing (r1 r2 : ℕ) (h1 : r1 ≤ 3) (h2 : r2 ≤ 3) :
    generate_braille r1 r2 =
      some (0x2800 ||| braille_left.getD r1 0 ||| braille_right.getD r2 0) ∧
    generate_braille (-1) r2 = some (0x2800 ||| braille_right.getD r2 0) ∧
    generate_braille r1 (-1) = some (0x2800 ||| braille_left.getD r1 0) := by
  interval_cases r1 <;> interval_cases r2 <;> exact ⟨by decide, by decide, by decide⟩

/-- Witness for C9 at dot rows (2, 3). -/
theorem C9_braille_packing_witness :
    generate_braille 2 3 =
      some (0x2800 ||| braille_left.getD 2 0 ||| braille_right.getD 3 0) ∧
    generate_braille (-1) 3 = some (0x2800 ||| braille_right.getD 3 0) ∧
    generate_braille 2 (-1) = some (0x2800 ||| braille_left.getD 2 0) :=
  C9_braille_packing 2 3 (by decide) (by decide)

/-! ## HChart partial-glyph selector (C10) -/

/-- The boundary-row glyph selector of `HChart._display`:
`q = (1 - dp / 100) * tbox.h; index = int((int(q) - q) * 8 - 1)`. -/
def HChart_selector (dp : ℚ) (h : ℕ) : ℤ :=
  let q : ℚ := (1 - dp / 100) * h
  pyInt ((((pyInt q : ℤ) : ℚ) - q) * 8 - 1)

/-- C10: for every sample 0 ≤ dp ≤ 100 and box height h > 0 the selector
`int((int(q) - q) * 8 - 1)` computed on the boundary row of `HChart._display`
lies in -8..-1, hence is a valid Python negative index into the 8-element
`vbar_elements` table. -/
theorem C10_selector_range (dp : ℚ) (h : ℕ) (hdp0 : 0 ≤ dp) (hdp1 : dp ≤ 100)
    (hh : 0 < h) :
    (-8 ≤ HChart_selector dp h ∧ HChart_selector dp h ≤ -1) ∧
    (pyGetChar vbar_elements (HChart_selector dp h)).isSome := by
  have hq : (0 : ℚ) ≤ (1 - dp / 100) * h := by
    have h1 : dp / 100 ≤ 1 := by linarith [(by linarith : dp ≤ 100)];
    have : (0 : ℚ) ≤ 1 - dp / 100 := by
      have : dp / 100 ≤ 1 := by
        rw [div_le_one (by norm_num : (0:ℚ) < 100)]; exact hdp1
      linarith
    positivity
  set q : ℚ := (1 - dp / 100) * h with hqdef
  have hfloor_le : (⌊q⌋ : ℚ) ≤ q := Int.floor_le q
  have hlt : q < ⌊q⌋ + 1 := Int.lt_floor_add_one q
  have hpy : pyInt q = ⌊q⌋ := pyInt_of_nonneg hq
  have hsel : HChart_selector dp h = pyInt ((((⌊q⌋ : ℤ) : ℚ) - q) * 8 - 1) := by
    show pyInt ((((pyInt q : ℤ) : ℚ) - q) * 8 - 1) = _
    rw [hpy]
  set E : ℚ := (((⌊q⌋ : ℤ) : ℚ) - q) * 8 - 1 with hEdef
  have hE_le : E ≤ -1 := by
    have : ((⌊q⌋ : ℤ) : ℚ) - q ≤ 0 := by linarith
    have : (((⌊q⌋ : ℤ) : ℚ) - q) * 8 ≤ 0 := by linarith
    simp only [hEdef]
    linarith
  have hE_gt : -9 < E := by
    have : -1 < ((⌊q⌋ : ℤ) : ℚ) - q := by linarith
    have : -8 < (((⌊q⌋ : ℤ) : ℚ) - q) * 8 := by linarith
    simp only [hEdef]
    linarith
  have hpyE : pyInt E = -⌊-E⌋ := by
    unfold pyInt
    rw [if_neg (by linarith)]
  have hfl1 : 1 ≤ ⌊-E⌋ := by
    rw [Int.le_floor]
    push_cast
    linarith
  have hfl2 : ⌊-E⌋ ≤ 8 := by
    have : ⌊-E⌋ < 9 := by
      rw [Int.floor_lt]
      push_cast
      linarith
    omega
  have hrange : -8 ≤ HChart_selector dp h ∧ HChart_selector dp h ≤ -1 := by
    rw [hsel, hpyE]
    omega
  refine ⟨hrange, ?_⟩
  rcases hrange with ⟨hr1, hr2⟩
  unfold pyGetChar
  rw [if_neg (by omega)]
  rw [if_neg (by simp [vbar_elements]; omega)]
  rw [List.get?_eq_get (by simp [vbar_elements]; omega)]
  simp

/-- Witness for C10 at dp = 55/2, h = 7. -/
theorem C10_selector_range_witness :
    ((-8 ≤ HChart_selector (55 / 2) 7 ∧ HChart_selector (55 / 2) 7 ≤ -1) ∧
    (pyGetChar vbar_elements (HChart_selector (55 / 2) 7)).isSome) :=
  C10_selector_range (55 / 2) 7 (by norm_num) (by norm_num) (by norm_num)


/-! ## Boxes and split geometry -/

/-- `TBox = namedtuple("TBox", "t x y w h")` with the terminal handle `t`
dropped: `x` is the row, `y` the column, `w` the width, `h` the height. -/
structure TBox where
  x : ℤ
  y : ℤ
  w : ℤ
  h : ℤ
deriving DecidableEq

/-- The geometry of `VSplit._display`: child boxes and the leftover fill box.
From the source: `item_height = tbox.h // len(self.items)`,
`item_width = tbox.w`; the cursor starts at `x = tbox.x` and advances by
`item_height` per child; afterwards `leftover_x = tbox.h - x + 1` and, if
positive, the area `TBox(t, x, tbox.y, tbox.w, leftover_x)` is filled with
spaces. `n = 0` returns before any geometry is computed. -/
def VSplit_layout (box : TBox) (n : ℕ) : List TBox × Option TBox :=
  if n = 0 then ([], none)
  else
    let item_height := Int.fdiv box.h n
    let item_width := box.w
    let children := (List.range n).map fun i =>
      TBox.mk (box.x + i * item_height) box.y item_width item_height
    let x := box.x + n * item_height
    let leftover_x := box.h - x + 1
    (children, if 0 < leftover_x then some ⟨x, box.y, box.w, leftover_x⟩ else none)

/-- The geometry of `HSplit._display`: `item_width = tbox.w // len(items)`,
`item_height = tbox.h`; `y` advances by `item_width` per child; afterwards
`leftover_y = tbox.w - y + 1` and, if positive, the area
`TBox(t, tbox.x, y, leftover_y - 1, tbox.h)` is filled. -/
def HSplit_layout (box : TBox) (n : ℕ) : List TBox × Option TBox :=
  if n = 0 then ([], none)
  else
    let item_width := Int.fdiv box.w n
    let item_height := box.h
    let children := (List.range n).map fun i =>
      TBox.mk box.x (box.y + i * item_width) item_width item_height
    let y := box.y + n * item_width
    let leftover_y := box.w - y + 1
    (children, if 0 < leftover_y then some ⟨box.x, y, leftover_y - 1, box.h⟩ else none)

/-- C3 (code bug): at the origin box (x = 0, y = 0, w = 10, h = 5) with two
children, `VSplit` assigns each child height 2 but fills a leftover area of
height 5 - 4 + 1 = 2 starting at row 4, so child extents plus leftover is
2 + 2 + 2 = 6 ≠ 5 and the fill's last row (row 5) lies outside the parent
box (rows 0..4). `HSplit` on the transposed box partitions exactly:
2 * 5 + leftover 0 = 10. The `+ 1` in `leftover_x = tbox.h - x + 1` is
uncompensated in `VSplit`, unlike `HSplit` which fills `leftover_y - 1`. -/
theorem C3_vsplit_leftover_bug :
    VSplit_layout ⟨0, 0, 10, 5⟩ 2 =
      ([⟨0, 0, 10, 2⟩, ⟨2, 0, 10, 2⟩], some ⟨4, 0, 10, 2⟩) ∧
    (2 + 2) + 2 ≠ (5 : ℤ) ∧
    4 + 2 > (5 : ℤ) ∧
    HSplit_layout ⟨0, 0, 5, 10⟩ 2 =
      ([⟨0, 0, 2, 10⟩, ⟨0, 2, 2, 10⟩], some ⟨0, 4, 1, 10⟩) := by
  refine ⟨?_, by decide, by decide, ?_⟩ <;> decide

/-! ## Borders and titles (`Tile._draw_borders_and_title`) -/

/-- The box returned by `Tile._draw_borders_and_title`:
with a border, `TBox(t, x+1, y+1, w-2, h-2)`; without a border but with a
title, `TBox(t, x+1, y, w-0, h-1)`; otherwise the box unchanged. -/
def draw_borders_and_title_box (border : Bool) (title : String) (box : TBox) : TBox :=
  if border then ⟨box.x + 1, box.y + 1, box.w - 2, box.h - 2⟩
  else if title ≠ "" then ⟨box.x + 1, box.y, box.w - 0, box.h - 1⟩
  else box

/-- The top row printed in the no-border-with-title branch:
`margin = int((tbox.w - len(self.title)) / 20)` (true division, truncated)
and `title = " " * margin + self.title + " " * (tbox.w - margin - len(self.title))`. -/
def no_border_title_row (title : String) (w : ℤ) : List Char :=
  let margin : ℤ := pyInt (((w : ℚ) - title.length) / 20)
  List.replicate margin.toNat ' ' ++ title.toList ++
    List.replicate (w - margin - title.length).toNat ' '

/-- C4 (counterexample): for a borderless tile with title "T" on the box
(x = 0, y = 0, w = 10, h = 5), `_draw_borders_and_title` returns a box of
height 4, not the claimed unshrunk height 5, and the printed title row
starts with 'T' in the first column (margin 0), not inset by one column. -/
theorem C4_counterexample :
    (draw_borders_and_title_box false "T" ⟨0, 0, 10, 5⟩).h = 4 ∧
    (4 : ℤ) ≠ 5 ∧
    draw_borders_and_title_box false "T" ⟨0, 0, 10, 5⟩ = ⟨1, 0, 10, 4⟩ ∧
    (no_border_title_row "T" 10).head? = some 'T' := by
  refine ⟨by decide, by decide, by decide, ?_⟩
  decide

/-- C4 (amended): with a border the returned box is shrunk by 1 on each side,
(x+1, y+1, w-2, h-2); with no border but a title the returned box is
(x+1, y, w, h-1) — the top row is consumed, so the height shrinks by one and
the origin moves down one row, while the title is printed on the original top
row at column offset int((w - len(title)) / 20); with neither, the box is
returned unchanged. -/
theorem C4_amended (title : String) (box : TBox) :
    draw_borders_and_title_box true title box =
      ⟨box.x + 1, box.y + 1, box.w - 2, box.h - 2⟩ ∧
    (title ≠ "" → draw_borders_and_title_box false title box =
      ⟨box.x + 1, box.y, box.w, box.h - 1⟩) ∧
    draw_borders_and_title_box false "" box = box := by
  refine ⟨rfl, fun ht => ?_, rfl⟩
  unfold draw_borders_and_title_box
  rw [if_neg (by simp), if_pos ht]
  simp

/-- Witness for C4 at title "T" and box (0, 0, 10, 5). -/
theorem C4_amended_witness :
    draw_borders_and_title_box true "T" ⟨0, 0, 10, 5⟩ = ⟨1, 1, 8, 3⟩ ∧
    draw_borders_and_title_box false "T" ⟨0, 0, 10, 5⟩ = ⟨1, 0, 10, 4⟩ ∧
    draw_borders_and_title_box false "" ⟨0, 0, 10, 5⟩ = ⟨0, 0, 10, 5⟩ :=
  ⟨(C4_amended "T" ⟨0, 0, 10, 5⟩).1,
   (C4_amended "T" ⟨0, 0, 10, 5⟩).2.1 (by decide),
   (C4_amended "" ⟨0, 0, 10, 5⟩).2.2⟩

/-! ## Log rendering (`Log._display` and `_pad`) -/

/-- `_pad(itr, n)` from the source: yields the enumerated items of `itr`
first, then `(index, "")` filler pairs up to index n - 1 (no filler when the
iterator already yields n or more items). -/
def pad (itr : List String) (n : ℕ) : List (ℕ × String) :=
  itr.enum ++ (List.range (n - itr.length)).map fun j => (itr.length + j, "")

/-- The (row, line) pairs drawn by `Log._display` in a box of height h:
`n_logs = len(self.logs); log_range = min(n_logs, tbox.h);
start = n_logs - log_range;` then `_pad` over `logs[start:n_logs]`. -/
def Log_display_rows (logs : List String) (h : ℕ) : List (ℕ × String) :=
  let n_logs := logs.length
  let log_range := min n_logs h
  let start := n_logs - log_range
  pad (logs.drop start) h

/-- C8 (counterexample): a Log holding ["a", "b", "c"] rendered at height 5
emits the content on the TOP three rows followed by two blank rows — not two
blank padding rows above the content as claimed. -/
theorem C8_counterexample :
    (Log_display_rows ["a", "b", "c"] 5).map Prod.snd = ["a", "b", "c", "", ""] ∧
    ["a", "b", "c", "", ""] ≠ ["", "", "a", "b", "c"] := by
  exact ⟨by decide, by decide⟩

/-- C8 (amended): for a Log with m appended lines rendered at height h with
m ≤ h, the rendered rows consist of the m content lines in append order on
the top m rows (newest line on row m - 1), followed by h - m blank padding
rows below the content. -/
theorem C8_amended (logs : List String) (h : ℕ) (hmh : logs.length ≤ h) :
    (Log_display_rows logs h).map Prod.snd =
      logs ++ List.replicate (h - logs.length) "" ∧
    ∀ i : ℕ, i < h → ((Log_display_rows logs h).get? i).map Prod.fst = some i := by
  have hstart : logs.length - min logs.length h = 0 := by omega
  constructor
  · simp only [Log_display_rows, pad, hstart, List.drop_zero]
    rw [List.map_append, List.enum_map_snd, List.map_map]
    congr 1
    have : (Prod.snd ∘ fun j => (logs.length + j, "")) = fun _ => "" := rfl
    rw [this, List.map_const', List.length_range]
  · intro i hi
    simp only [Log_display_rows, pad, hstart, List.drop_zero]
    by_cases hil : i < logs.length
    · rw [List.get?_append (by simp [List.enum_length]; exact hil)]
      rw [List.get?_eq_get (by simp [List.enum_length]; exact hil)]
      have := List.getElem_enum logs i (by simp [List.enum_length]; exact hil)
      simp [List.get_eq_getElem, this]
    · rw [List.get?_append_right (by simp [List.enum_length]; omega)]
      rw [List.enum_length]
      rw [List.get?_map]
      rw [List.get?_eq_get (by simp [List.length_range]; omega)]
      simp [List.get_eq_getElem, List.getElem_range]
      omega

/-- Witness for C8 with three lines at height 5. -/
theorem C8_amended_witness :
    ((Log_display_rows ["a", "b", "c"] 5).map Prod.snd =
      ["a", "b", "c"] ++ List.replicate (5 - (["a", "b", "c"] : List String).length) "" ∧
    ∀ i : ℕ, i < 5 →
      ((Log_display_rows ["a", "b", "c"] 5).get? i).map Prod.fst = some i) :=
  C8_amended ["a", "b", "c"] 5 (by decide)

/-! ## Which history sample each chart cell consults (C5) -/

/-- The sample `VChart._display` consults for row dx:
`index = 50 - tbox.h + dx; dp = self.datapoints[index]` — an absolute index
into the capacity-50 window, not a negative tail index. `none` models the
`IndexError` caught by the surrounding `try` (the row is drawn blank). -/
def VChart_consulted (data : List ℚ) (h : ℕ) (dx : ℕ) : Option ℚ :=
  pyGet data (50 - (h : ℤ) + dx)

/-- The sample `HChart._display` consults for column dy:
`dp_index = -tbox.w + dy; dp = self.datapoints[dp_index]` (negative tail
indexing). -/
def HChart_consulted (data : List ℚ) (w : ℕ) (dy : ℕ) : Option ℚ :=
  pyGet data (-(w : ℤ) + dy)

/-- The sample pair `HBrailleChart._display` (and `HBrailleFilledChart`)
consults for column dy: `dp_index = (dy - tbox.w) * 2;
dp1 = self.datapoints[dp_index]; dp2 = self.datapoints[dp_index + 1]` —
if either lookup raises, the cell is blank (`none`). -/
def HBrailleChart_consulted (data : List ℚ) (w : ℕ) (dy : ℕ) : Option (ℚ × ℚ) :=
  let dp_index : ℤ := ((dy : ℤ) - w) * 2
  match pyGet data dp_index, pyGet data (dp_index + 1) with
  | some dp1, some dp2 => some (dp1, dp2)
  | _, _ => none

/-- C5 (counterexample): a VChart whose buffer holds 10 samples (≥ N = 5 for
a height-5 box) consults NO sample for row 0 — the absolute index 45 is out
of range — even though the 5 most recent samples all exist; the claim would
have it consult sample `(data.drop 5).get? 0`. -/
theorem C5_counterexample :
    VChart_consulted (List.replicate 10 (7 : ℚ)) 5 0 = none ∧
    ((List.replicate 10 (7 : ℚ)).drop (10 - 5)).get? 0 = some 7 := by
  exact ⟨by decide, by decide⟩

/-- C5 (amended): HChart consults exactly the w most recent samples
(column dy reads tail sample dy) whenever the buffer holds at least w
samples, and the braille charts consult exactly the 2w most recent samples
in adjacent pairs whenever it holds at least 2w; VChart instead addresses a
fixed 50-slot window (`index = 50 - h + dx`), which coincides with the h
most recent samples only when the buffer is exactly full (50 samples). -/
theorem C5_amended :
    (∀ (data : List ℚ) (w dy : ℕ), dy < w → w ≤ data.length →
      HChart_consulted data w dy = (data.drop (data.length - w)).get? dy) ∧
    (∀ (data : List ℚ) (w dy : ℕ), dy < w → 2 * w ≤ data.length →
      ∃ dp1 dp2 : ℚ,
        (data.drop (data.length - 2 * w)).get? (2 * dy) = some dp1 ∧
        (data.drop (data.length - 2 * w)).get? (2 * dy + 1) = some dp2 ∧
        HBrailleChart_consulted data w dy = some (dp1, dp2)) ∧
    (∀ (data : List ℚ) (h dx : ℕ), dx < h → h ≤ 50 → data.length = 50 →
      VChart_consulted data h dx = (data.drop (50 - h)).get? dx) := by
  refine ⟨?_, ?_, ?_⟩
  · intro data w dy hdy hw
    unfold HChart_consulted pyGet
    rw [if_neg (by omega), if_neg (by omega)]
    rw [List.get?_drop]
    congr 1
    omega
  · intro data w dy hdy hw
    have h1 : ((data.length : ℤ) + ((dy : ℤ) - w) * 2).toNat =
        data.length - 2 * w + 2 * dy := by omega
    have h2 : ((data.length : ℤ) + (((dy : ℤ) - w) * 2 + 1)).toNat =
        data.length - 2 * w + (2 * dy + 1) := by omega
    have hlt1 : data.length - 2 * w + 2 * dy < data.length := by omega
    have hlt2 : data.length - 2 * w + (2 * dy + 1) < data.length := by omega
    obtain ⟨dp1, hdp1⟩ : ∃ v, data.get? (data.length - 2 * w + 2 * dy) = some v :=
      ⟨data.get ⟨_, hlt1⟩, List.get?_eq_get hlt1⟩
    obtain ⟨dp2, hdp2⟩ : ∃ v, data.get? (data.length - 2 * w + (2 * dy + 1)) = some v :=
      ⟨data.get ⟨_, hlt2⟩, List.get?_eq_get hlt2⟩
    refine ⟨dp1, dp2, ?_, ?_, ?_⟩
    · rw [List.get?_drop]
      exact hdp1
    · rw [List.get?_drop]
      exact hdp2
    · have hneg1 : ¬ (0 : ℤ) ≤ ((dy : ℤ) - w) * 2 := by omega
      have hneg2 : ¬ (0 : ℤ) ≤ ((dy : ℤ) - w) * 2 + 1 := by omega
      simp only [HBrailleChart_consulted, pyGet]
      rw [if_neg hneg1, if_neg (by omega), h1, hdp1]
      rw [if_neg hneg2, if_neg (by omega), h2, hdp2]
  · intro data h dx hdx hh hlen
    unfold VChart_consulted pyGet
    rw [if_pos (by omega)]
    rw [List.get?_drop]
    congr 1
    omega

/-- Witness for C5 at a concrete 4-sample buffer with w = 2, h = 2. -/
theorem C5_amended_witness :
    (HChart_consulted [1, 2, 3, 4] 2 0 = (([1, 2, 3, 4] : List ℚ).drop (4 - 2)).get? 0 ∧
    (∃ dp1 dp2 : ℚ,
      (([1, 2, 3, 4] : List ℚ).drop (4 - 2 * 2)).get? (2 * 0) = some dp1 ∧
      (([1, 2, 3, 4] : List ℚ).drop (4 - 2 * 2)).get? (2 * 0 + 1) = some dp2 ∧
      HBrailleChart_consulted [1, 2, 3, 4] 2 0 = some (dp1, dp2)) ∧
    VChart_consulted (List.map (Nat.cast : ℕ → ℚ) (List.range 50)) 2 1 =
      ((List.map (Nat.cast : ℕ → ℚ) (List.range 50)).drop (50 - 2)).get? 1) := by
  refine ⟨?_, ?_, ?_⟩
  · exact (C5_amended.1 [1, 2, 3, 4] 2 0 (by decide) (by decide))
  · have := (C5_amended.2.1 [1, 2, 3, 4] 2 0 (by decide) (by decide))
    simpa using this
  · exact (C5_amended.2.2 (List.map (Nat.cast : ℕ → ℚ) (List.range 50)) 2 1
      (by decide) (by decide) (by rw [List.length_map, List.length_range]))

/-! ## Gauges (`HGauge._display`, `VGauge._display`) -/

/-- The "full element" `hbar_elements[-1]` used by `HGauge`. -/
def full_element : Char := hbar_elements.getLastD ' '

/-- The glyph row of `HGauge._display` (color tokens and the label/padding
prefix omitted; only the bar glyphs are modelled). From the source:
with a label, `bar_wid = (tbox.w - label_wid - 3) * self.value / 100` and
`filler_wid = tbox.w - bar_iwid - label_wid - 2`; without,
`bar_wid = tbox.w * self.value / 100.0` and
`filler_wid = tbox.w - bar_iwid - 1`. The row is `bar_iwid` full elements,
then always `hbar_elements[selector]` with
`selector = int((bar_wid - int(bar_wid)) * 7)`, then `filler_wid` copies of
`hbar_elements[0]` (empty when `filler_wid` is negative). -/
def HGauge_bar (label : String) (w : ℕ) (value : ℚ) : List Char :=
  let bar_wid : ℚ :=
    if label = "" then (w : ℚ) * value / 100
    else ((w : ℚ) - label.length - 3) * value / 100
  let bar_iwid : ℤ := pyInt bar_wid
  let filler_wid : ℤ :=
    if label = "" then (w : ℤ) - bar_iwid - 1
    else (w : ℤ) - bar_iwid - label.length - 2
  let selector : ℤ := pyInt ((bar_wid - (bar_iwid : ℚ)) * 7)
  List.replicate bar_iwid.toNat full_element ++
    (pyGetChar hbar_elements selector).toList ++
    List.replicate filler_wid.toNat (hbar_elements.headD ' ')

/-- The glyph `VGauge._display` paints on the row `dx` levels above the
bottom of the box: `nh = tbox.h * (self.value / 100.5)`; full element for
`dx < int(nh)`, the fractional element `vbar_elements[int((nh - int(nh)) * 8)]`
for `dx == int(nh)`, blank above. -/
def VGauge_glyph (h : ℕ) (value : ℚ) (dx : ℕ) : Char :=
  let nh : ℚ := (h : ℚ) * (value / 100.5)
  if (dx : ℤ) < pyInt nh then vbar_elements.getLastD ' '
  else if (dx : ℤ) = pyInt nh then
    (pyGetChar vbar_elements (pyInt ((nh - ((pyInt nh : ℤ) : ℚ)) * 8))).getD ' '
  else ' '

/-- The whole VGauge column, bottom row first. -/
def VGauge_column (h : ℕ) (value : ℚ) : List Char :=
  (List.range h).map (VGauge_glyph h value)

/-- C2 (counterexample): at value = 100 an HGauge of usable width 2 renders
['▉', '▉', '▏'] — the two full columns are followed by a spurious partial
glyph beyond the filled region (and beyond the box width); and a VGauge of
height 26 does not fill all rows with full glyphs (its top row is '▇',
because `nh = 26 * 100/100.5 < 26`). -/
theorem C2_counterexample :
    HGauge_bar "" 2 100 = ['▉', '▉', '▏'] ∧
    HGauge_bar "" 2 100 ≠ List.replicate 2 full_element ∧
    (VGauge_column 26 100).getLastD ' ' = '▇' ∧
    VGauge_column 26 100 ≠ List.replicate 26 (vbar_elements.getLastD ' ') := by
  refine ⟨by decide, by decide, by decide, by decide⟩

/-- The seven partial glyphs `vbar_elements[0..6]` all differ from the full
block `vbar_elements[-1]`. -/
theorem vbar_partial_ne_full (i : ℤ) (h0 : 0 ≤ i) (h6 : i ≤ 6) :
    (pyGetChar vbar_elements i).getD ' ' ≠ vbar_elements.getLastD ' ' := by
  interval_cases i <;> decide

/-- For every h ≥ 26 at value = 100, the top VGauge row (dx = h - 1) is not
the full block: `nh = h * 100/100.5 < h`, so the top row is either the
boundary row — whose fractional index `int((nh - int(nh)) * 8)` stays at
most 6 once 8 * (nh - (h - 1)) = 8 * (201 - h) / 201 < 7, i.e. h ≥ 26 —
or lies above `int(nh)` and is blank. -/
theorem VGauge_top_not_full (h : ℕ) (h26 : 26 ≤ h) :
    VGauge_glyph h 100 (h - 1) ≠ vbar_elements.getLastD ' ' := by
  simp only [VGauge_glyph]
  have h100 : (100 : ℚ) / 100.5 = 200 / 201 := by norm_num
  rw [h100]
  set nh : ℚ := (h : ℚ) * (200 / 201) with hnhdef
  have hq26 : (26 : ℚ) ≤ (h : ℚ) := by exact_mod_cast h26
  have hnh0 : (0 : ℚ) ≤ nh := by rw [hnhdef]; positivity
  have hpy : pyInt nh = ⌊nh⌋ := pyInt_of_nonneg hnh0
  rw [hpy]
  have hflo : ((⌊nh⌋ : ℤ) : ℚ) ≤ nh := Int.floor_le nh
  have hnhlt : nh < (h : ℚ) := by
    rw [hnhdef]
    linarith
  have hkle : ⌊nh⌋ ≤ (h : ℤ) - 1 := by
    have hlt : ⌊nh⌋ < (h : ℤ) := by
      rw [Int.floor_lt]
      push_cast
      exact hnhlt
    omega
  have hcast : (((h - 1 : ℕ)) : ℤ) = (h : ℤ) - 1 := by omega
  rw [hcast]
  rw [if_neg (by omega)]
  by_cases hk : ((h : ℤ) - 1) = ⌊nh⌋
  · rw [if_pos hk]
    have hkq : ((⌊nh⌋ : ℤ) : ℚ) = (h : ℚ) - 1 := by
      rw [← hk]
      push_cast
      ring
    have hfr0 : (0 : ℚ) ≤ (nh - ((⌊nh⌋ : ℤ) : ℚ)) * 8 := by linarith
    have hfr8 : (nh - ((⌊nh⌋ : ℤ) : ℚ)) * 8 < 7 := by
      rw [hkq, hnhdef]
      linarith
    have hidx0 : 0 ≤ pyInt ((nh - ((⌊nh⌋ : ℤ) : ℚ)) * 8) := by
      rw [pyInt_of_nonneg hfr0]
      exact Int.floor_nonneg.mpr hfr0
    have hidx6 : pyInt ((nh - ((⌊nh⌋ : ℤ) : ℚ)) * 8) ≤ 6 := by
      rw [pyInt_of_nonneg hfr0]
      have hlt7 : ⌊(nh - ((⌊nh⌋ : ℤ) : ℚ)) * 8⌋ < 7 := by
        rw [Int.floor_lt]
        push_cast
        exact hfr8
      omega
    exact vbar_partial_ne_full _ hidx0 hidx6
  · rw [if_neg hk]
    decide

/-- C2 (amended): at value = 0 both gauges render zero full-block glyphs;
at value = 100 an HGauge without label renders exactly `w` full elements and
then one spurious partial glyph `hbar_elements[0]` beyond the filled region
(the unconditional selector append), and a VGauge fills all rows with full
glyphs exactly when the box height is at most 25: for h ≤ 25 every row is
the full block, while for every h ≥ 26 the top row is not the full block
(because of the `100.5` divisor), so the column is never all-full. -/
theorem C2_amended :
    (∀ (label : String) (w : ℕ), (HGauge_bar label w 0).count full_element = 0) ∧
    (∀ w : ℕ, HGauge_bar "" w 100 =
      List.replicate w full_element ++ [hbar_elements.headD ' ']) ∧
    (∀ h dx : ℕ, VGauge_glyph h 0 dx ≠ vbar_elements.getLastD ' ') ∧
    (∀ h : ℕ, h ≤ 25 →
      VGauge_column h 100 = List.replicate h (vbar_elements.getLastD ' ')) ∧
    (∀ h : ℕ, 26 ≤ h → VGauge_glyph h 100 (h - 1) ≠ vbar_elements.getLastD ' ' ∧
      VGauge_column h 100 ≠ List.replicate h (vbar_elements.getLastD ' ')) := by
  refine ⟨?_, ?_, ?_, ?_, ?_⟩
  · intro label w
    simp only [HGauge_bar]
    have hbw : (if label = "" then (w : ℚ) * 0 / 100
        else ((w : ℚ) - label.length - 3) * 0 / 100) = 0 := by
      split <;> ring
    rw [hbw, pyInt_zero, Int.toNat_zero, List.replicate_zero]
    have hsel : pyInt ((0 - ((0 : ℤ) : ℚ)) * 7) = 0 := by
      norm_num [pyInt_zero]
    rw [hsel]
    have htl : (pyGetChar hbar_elements 0).toList = ['▏'] := by decide
    rw [htl]
    rw [List.nil_append, List.count_append]
    rw [List.count_replicate]
    rw [if_neg (by decide)]
    decide
  · intro w
    simp only [HGauge_bar, ite_true]
    have hbw : (w : ℚ) * 100 / 100 = (w : ℚ) := by
      field_simp
    rw [hbw, pyInt_natCast]
    have hsel : pyInt (((w : ℚ) - (((w : ℕ) : ℤ) : ℚ)) * 7) = 0 := by
      have he : ((w : ℚ) - (((w : ℕ) : ℤ) : ℚ)) * 7 = 0 := by push_cast; ring
      rw [he, pyInt_zero]
    rw [hsel]
    have hfill : ((w : ℤ) - ((w : ℕ) : ℤ) - 1).toNat = 0 := by omega
    rw [hfill]
    have htl : (pyGetChar hbar_elements 0).toList = ['▏'] := by decide
    rw [htl]
    rw [show ((w : ℕ) : ℤ).toNat = w by omega]
    rw [List.replicate_zero, List.append_nil]
    rfl
  · intro h dx
    simp only [VGauge_glyph]
    have hnh : (h : ℚ) * ((0 : ℚ) / 100.5) = 0 := by ring
    rw [hnh, pyInt_zero]
    rw [if_neg (by omega)]
    by_cases hdx : (dx : ℤ) = 0
    · rw [if_pos hdx]
      decide
    · rw [if_neg hdx]
      decide
  · intro h hle
    interval_cases h <;> decide
  · intro h h26
    refine ⟨VGauge_top_not_full h h26, ?_⟩
    intro hceq
    apply VGauge_top_not_full h h26
    have h1 : (VGauge_column h 100).get? (h - 1) = some (VGauge_glyph h 100 (h - 1)) := by
      unfold VGauge_column
      rw [List.get?_map, List.get?_range (by omega)]
      rfl
    have h2 : (List.replicate h (vbar_elements.getLastD ' ')).get? (h - 1) =
        some (vbar_elements.getLastD ' ') := by
      rw [List.get?_eq_get (by rw [List.length_replicate]; omega)]
      rw [List.get_replicate]
    rw [hceq, h2] at h1
    exact (Option.some.inj h1).symm

/-- Witness for C2 at heights 7 (all-full) and 30 (top row not full). -/
theorem C2_amended_witness :
    (VGauge_column 7 100 = List.replicate 7 (vbar_elements.getLastD ' ') ∧
    VGauge_column 30 100 ≠ List.replicate 30 (vbar_elements.getLastD ' ')) :=
  ⟨C2_amended.2.2.2.1 7 (by decide), (C2_amended.2.2.2.2 30 (by decide)).2⟩

/-! ## Color model: `colorsys` conversions and `interpolate_colors` (C1) -/

/-- An `RGB` color: three integers (`__slots__ = ["r", "g", "b"]`),
equality by component tuple. -/
structure RGB where
  r : ℤ
  g : ℤ
  b : ℤ
deriving DecidableEq

/-- `colorsys.rgb_to_hsv(r, g, b)` over exact rationals. This is an exact
idealization of the double-precision original: the program's divisions
round, so results are asserted about the program only on paths where the
float computation is exact (equality branches, zero coefficients, gray
inputs) or at concrete inputs whose float trace is exact. -/
def rgb_to_hsv (r g b : ℚ) : ℚ × ℚ × ℚ :=
  let maxc := max r (max g b)
  let minc := min r (min g b)
  let v := maxc
  if minc = maxc then (0, 0, v)
  else
    let s := (maxc - minc) / maxc
    let rc := (maxc - r) / (maxc - minc)
    let gc := (maxc - g) / (maxc - minc)
    let bc := (maxc - b) / (maxc - minc)
    let h := if r = maxc then bc - gc
             else if g = maxc then 2 + rc - bc
             else 4 + gc - rc
    (fract (h / 6), s, v)

/-- `colorsys.hsv_to_rgb(h, s, v)` over exact rationals; `int(h*6.0)` is
`pyInt`, `i % 6` is the Python (euclidean, nonnegative) remainder. The same
exact-idealization caveat as for `rgb_to_hsv` applies: the float program's
round trip through both conversions is not exact in general. -/
def hsv_to_rgb (h s v : ℚ) : ℚ × ℚ × ℚ :=
  if s = 0 then (v, v, v)
  else
    let i0 : ℤ := pyInt (h * 6)
    let f : ℚ := h * 6 - i0
    let p := v * (1 - s)
    let q := v * (1 - s * f)
    let t := v * (1 - s * (1 - f))
    let i := i0 % 6
    if i = 0 then (v, t, p)
    else if i = 1 then (q, v, p)
    else if i = 2 then (p, v, t)
    else if i = 3 then (p, q, v)
    else if i = 4 then (t, p, v)
    else (v, p, q)

/-- `interpolate_colors(high, low, steps, pos)` from the source. The two
initial `to_hls` assignments are dead code (immediately overwritten by the
`rgb_to_hsv` results) and are omitted; the trailing asserts do not affect
the returned value. Note `start` is the HSV of `low` and `end` the HSV of
`high`, and `k = pos / float(steps)`. -/
def interpolate_colors (high low : RGB) (steps : ℕ) (pos : ℕ) : RGB :=
  let start := rgb_to_hsv low.r low.g low.b
  let endv := rgb_to_hsv high.r high.g high.b
  let k : ℚ := (pos : ℚ) / (steps : ℚ)
  let h := start.1 + (endv.1 - start.1) * k
  let s := start.2.1 + (endv.2.1 - start.2.1) * k
  let v := start.2.2 + (endv.2.2 - start.2.2) * k
  let c := hsv_to_rgb h s v
  ⟨pyInt c.1, pyInt c.2.1, pyInt c.2.2⟩

/-- C1 (counterexample): with a = RGB(255, 0, 0), b = RGB(0, 0, 0) and
steps = 2, `interpolate_colors(a, b, 2, 0)` returns b = (0, 0, 0), not a,
and `interpolate_colors(a, b, 2, 1)` (pos = steps - 1) returns
(127, 63, 63), which is neither endpoint: the gradient runs from `low` at
pos = 0 towards `high` at pos = steps, so neither claimed endpoint identity
holds. -/
theorem C1_counterexample :
    interpolate_colors ⟨255, 0, 0⟩ ⟨0, 0, 0⟩ 2 0 = ⟨0, 0, 0⟩ ∧
    interpolate_colors ⟨255, 0, 0⟩ ⟨0, 0, 0⟩ 2 0 ≠ ⟨255, 0, 0⟩ ∧
    interpolate_colors ⟨255, 0, 0⟩ ⟨0, 0, 0⟩ 2 1 = ⟨127, 63, 63⟩ ∧
    interpolate_colors ⟨255, 0, 0⟩ ⟨0, 0, 0⟩ 2 1 ≠ ⟨0, 0, 0⟩ := by
  refine ⟨by decide, by decide, by decide, by decide⟩

/-- C1 (amended): the claimed endpoint identities fail — the gradient runs
from `low` (the second argument) towards `high`, whose position is
pos = steps, not steps - 1 — and exact endpoint equality only holds where
the floating-point HSV round trip of the program is exact. Provably (and
IEEE-exactly, since `k = pos / float(steps)` is exactly 0.0 at pos = 0 and
the gray paths take the `minc == maxc` / `s == 0` branches with no rounding):
(1) the pos = 0 output is determined by the low color alone, independent of
the high color and of steps; (2) for a gray low color b the pos = 0 output
is exactly b; (3) for a gray high color a the pos = steps output is exactly
a. For general colors the pos = 0 output is the int-truncated HSV round trip
of b, which in IEEE doubles can be off by one in a channel (low (0, 5, 255)
returns green 4). -/
theorem C1_amended :
    (∀ (a a' b : RGB) (steps steps' : ℕ), 0 < steps → 0 < steps' →
      interpolate_colors a b steps 0 = interpolate_colors a' b steps' 0) ∧
    (∀ (a b : RGB) (steps : ℕ), 0 < steps → b.r = b.g → b.g = b.b →
      interpolate_colors a b steps 0 = b) ∧
    (∀ (a b : RGB) (steps : ℕ), 0 < steps → a.r = a.g → a.g = a.b →
      interpolate_colors a b steps steps = a) := by
  have hz : ∀ (n : ℕ) (x y : ℚ), x + (y - x) * (((0 : ℕ) : ℚ) / (n : ℚ)) = x := by
    intro n x y
    push_cast
    ring
  have hgray : ∀ c : ℤ, rgb_to_hsv (c : ℚ) (c : ℚ) (c : ℚ) = (0, 0, (c : ℚ)) := by
    intro c
    simp [rgb_to_hsv]
  have hsv0 : ∀ v : ℚ, hsv_to_rgb 0 0 v = (v, v, v) := by
    intro v
    simp [hsv_to_rgb]
  refine ⟨?_, ?_, ?_⟩
  · intro a a' b steps steps' hs hs'
    simp only [interpolate_colors]
    rw [hz steps, hz steps, hz steps, hz steps', hz steps', hz steps']
  · intro a b steps hs h1 h2
    obtain ⟨br, bg, bb⟩ := b
    change br = bg at h1
    change bg = bb at h2
    subst h1
    subst h2
    simp only [interpolate_colors]
    rw [hz steps, hz steps, hz steps, hgray br]
    show RGB.mk (pyInt (hsv_to_rgb 0 0 (br : ℚ)).1) (pyInt (hsv_to_rgb 0 0 (br : ℚ)).2.1)
      (pyInt (hsv_to_rgb 0 0 (br : ℚ)).2.2) = ⟨br, br, br⟩
    rw [hsv0]
    show RGB.mk (pyInt (br : ℚ)) (pyInt (br : ℚ)) (pyInt (br : ℚ)) = ⟨br, br, br⟩
    rw [pyInt_intCast]
  · intro a b steps hs h1 h2
    obtain ⟨ar, ag, ab2⟩ := a
    change ar = ag at h1
    change ag = ab2 at h2
    subst h1
    subst h2
    simp only [interpolate_colors]
    have hne : ((steps : ℚ)) ≠ 0 := by
      exact_mod_cast Nat.pos_iff_ne_zero.mp hs
    have ho : ∀ x y : ℚ, x + (y - x) * ((steps : ℚ) / (steps : ℚ)) = y := by
      intro x y
      rw [div_self hne]
      ring
    rw [ho, ho, ho, hgray ar]
    show RGB.mk (pyInt (hsv_to_rgb 0 0 (ar : ℚ)).1) (pyInt (hsv_to_rgb 0 0 (ar : ℚ)).2.1)
      (pyInt (hsv_to_rgb 0 0 (ar : ℚ)).2.2) = ⟨ar, ar, ar⟩
    rw [hsv0]
    show RGB.mk (pyInt (ar : ℚ)) (pyInt (ar : ℚ)) (pyInt (ar : ℚ)) = ⟨ar, ar, ar⟩
    rw [pyInt_intCast]

/-- Witness for C1: pos = 0 with low (0, 5, 255) is independent of the high
color and of steps; a gray low (9, 9, 9) comes back exactly at pos = 0 and a
gray high (17, 17, 17) exactly at pos = steps = 3. -/
theorem C1_amended_witness :
    interpolate_colors ⟨255, 10, 0⟩ ⟨0, 5, 255⟩ 2 0 =
      interpolate_colors ⟨1, 2, 3⟩ ⟨0, 5, 255⟩ 5 0 ∧
    interpolate_colors ⟨255, 10, 0⟩ ⟨9, 9, 9⟩ 2 0 = ⟨9, 9, 9⟩ ∧
    interpolate_colors ⟨17, 17, 17⟩ ⟨0, 5, 255⟩ 3 3 = ⟨17, 17, 17⟩ :=
  ⟨C1_amended.1 ⟨255, 10, 0⟩ ⟨1, 2, 3⟩ ⟨0, 5, 255⟩ 2 5 (by decide) (by decide),
   C1_amended.2.1 ⟨255, 10, 0⟩ ⟨9, 9, 9⟩ 2 (by decide) rfl rfl,
   C1_amended.2.2 ⟨17, 17, 17⟩ ⟨0, 5, 255⟩ 3 (by decide) rfl rfl⟩
